import Mathlib

/-!
# trailgrep: a shallow embedding of `trailgrep.go`

The program lists the keys under a prefix of an S3 bucket (`keys`), fetches each
object, scans it for a literal byte pattern (`grepInKey`) and writes every
matching object to a local file named by the last path element of its key
(`grepFor`).

Go strings are modelled by `String`, byte slices by `List Byte`.  The external
collaborators (the S3 client, the local file system, the Go standard library
functions `path.Base`, `bytes.Contains`, `bytes.Buffer`, `io.Copy`) are modelled
from their documented behaviour; the three functions of the repository are
transcribed statement by statement.
-/

namespace Trailgrep

/-- One byte of an object body or of the search target. -/
abbrev Byte := UInt8

/-! ## Go standard library: `path.Base` -/

/-- Go: the loop `for len(path) > 0 && path[len(path)-1] == '/' { path = path[0 : len(path)-1] }`
of `path.Base`, on the characters of the path. -/
def stripTrailingSlashes : List Char → List Char
  | [] => []
  | c :: cs =>
    match stripTrailingSlashes cs with
    | [] => if c = '/' then [] else [c]
    | r => c :: r

/-- Go: `path = path[lastSlash(path)+1:]` when the path holds a slash, the path
itself otherwise: what follows the last `'/'`. -/
def afterLastSlash : List Char → List Char
  | [] => []
  | c :: cs =>
    if '/' ∈ cs then afterLastSlash cs
    else if c = '/' then cs
    else c :: cs

/-- Go: `path.Base` on the characters of the path: `"."` for the empty path,
trailing slashes stripped, then the last element, `"/"` when nothing is left. -/
def baseChars (p : List Char) : List Char :=
  if p = [] then ['.']
  else
    let q := afterLastSlash (stripTrailingSlashes p)
    if q = [] then ['/'] else q

/-- Go: `path.Base(path string) string`. -/
def pathBase (p : String) : String := String.mk (baseChars p.data)

/-! ## Go standard library: `bytes.Contains` -/

/-- Go: `bytes.HasPrefix(s, prefix)`. -/
def hasPrefix : List Byte → List Byte → Bool
  | _, [] => true
  | [], _ :: _ => false
  | b :: bs, t :: ts => b == t && hasPrefix bs ts

/-- Go: `bytes.Index(s, sep) != -1`, by the defining left-to-right search: is there
an offset of `s` at which `sep` starts. -/
def indexFound : List Byte → List Byte → Bool
  | [], sep => hasPrefix [] sep
  | b :: bs, sep => hasPrefix (b :: bs) sep || indexFound bs sep

/-- Go: `bytes.Contains(b, subslice) = Index(b, subslice) != -1`. -/
def bytesContains (b subslice : List Byte) : Bool := indexFound b subslice

/-! ## Go standard library: `bytes.Buffer` -/

/-- Go: `bytes.Buffer`: the contents are the bytes `buf[off:]`. -/
structure Buffer where
  buf : List Byte
  off : Nat
deriving DecidableEq, Repr

/-- Go: `bytes.Buffer{}`, the zero value, an empty buffer. -/
def Buffer.zero : Buffer := { buf := [], off := 0 }

/-- Go: `(*Buffer).Reset`: `b.buf = b.buf[:0]; b.off = 0`. -/
def Buffer.Reset (_b : Buffer) : Buffer := { buf := [], off := 0 }

/-- Go: `(*Buffer).Bytes`: `b.buf[b.off:]`, the unread portion; nothing is consumed. -/
def Buffer.Bytes (b : Buffer) : List Byte := b.buf.drop b.off

/-- Go: `(*Buffer).Len`: `len(b.buf) - b.off`. -/
def Buffer.Len (b : Buffer) : Nat := b.buf.length - b.off

/-- The body stream of a fetched object (`out.Body`, an `io.ReadCloser`): the
chunks its successive `Read` calls deliver, then `io.EOF` (`err = none`) or a read
error. -/
structure Body where
  chunks : List (List Byte)
  err : Option String
deriving DecidableEq, Repr

/-- The bytes a body delivers before its stream ends: the content of the object
when the stream ends with `io.EOF`. -/
def Body.content (r : Body) : List Byte := r.chunks.flatten

/-- Go: the loop of `(*Buffer).ReadFrom`: every `Read` appends its chunk to the
buffer (`b.buf = b.buf[:i+m]`). -/
def Buffer.readChunks (b : Buffer) : List (List Byte) → Buffer
  | [] => b
  | m :: rest => Buffer.readChunks { buf := b.buf ++ m, off := b.off } rest

/-- Go: `(*Buffer).ReadFrom(r)`: appends what `r` delivers until `io.EOF` (returned
as a nil error) or an error (returned); the bytes read before an error stay in
the buffer. -/
def Buffer.ReadFrom (b : Buffer) (r : Body) : Buffer × Option String :=
  (b.readChunks r.chunks, r.err)

/-! ## The collaborators: object store and local file system -/

/-- One listing entry (`*s3.Object`): only its `Key` field, a `*string`, is read. -/
structure Object where
  Key : Option String
deriving DecidableEq, Repr

/-- One listing page (`*s3.ListObjectsV2Output`): only its `Contents` field is read;
`none` is the nil slice, `some []` an empty non-nil slice, an entry `none` a nil
pointer. -/
structure ListObjectsV2Output where
  Contents : Option (List (Option Object))
deriving DecidableEq, Repr

/-- What one call of `ListObjectsV2Pages` does: the pages it hands to the callback,
each with its `last` flag, in order, and the error it returns in the end (`none`
for a nil error). -/
structure Listing where
  pages : List (Option ListObjectsV2Output × Bool)
  err : Option String
deriving DecidableEq, Repr

/-- The S3 client as the program uses it: `GetObject` by bucket and key, and the
paginated listing by bucket and prefix. -/
structure S3 where
  GetObject : String → String → Except String Body
  ListObjectsV2 : String → String → Listing

/-- The local directory: file names with their contents, in order of creation. -/
abbrev Files := List (String × List Byte)

/-- The content of the file of a name, if there is one. -/
def Files.get (fs : Files) (name : String) : Option (List Byte) :=
  match fs with
  | [] => none
  | (n, d) :: rest => if n = name then some d else Files.get rest name

/-- The file of a name is created empty, or truncated when it exists. -/
def Files.truncate (fs : Files) (name : String) : Files :=
  match fs with
  | [] => [(name, [])]
  | (n, d) :: rest => if n = name then (n, []) :: rest else (n, d) :: Files.truncate rest name

/-- Bytes are appended to the file of a name. -/
def Files.append (fs : Files) (name : String) (data : List Byte) : Files :=
  match fs with
  | [] => []
  | (n, d) :: rest =>
    if n = name then (n, d ++ data) :: rest else (n, d) :: Files.append rest name data

/-- The faults of the local file system: for a file name, the error `os.Create`
returns (`none`: it succeeds), and the number of bytes after which a `Write` to
it fails, with the error (`none`: every write is complete). -/
structure OS where
  createErr : String → Option String
  writeErr : String → Option (Nat × String)

/-- Go: `os.Create(name)`: creates or truncates the named file. -/
def osCreate (os : OS) (fs : Files) (name : String) : Except String Files :=
  match os.createErr name with
  | some e => .error e
  | none => .ok (fs.truncate name)

/-- Go: `(*os.File).Write(p)` on the file created under `name`: the bytes written
are appended; on a fault only the first `m` bytes are, and the error is returned
with the count. -/
def fileWrite (os : OS) (fs : Files) (name : String) (p : List Byte) :
    Files × Nat × Option String :=
  match os.writeErr name with
  | none => (fs.append name p, p.length, none)
  | some (m, e) => (fs.append name (p.take m), min m p.length, some e)

/-- Go: `io.Copy(f, &buf)`, which is `buf.WriteTo(f)` since `*bytes.Buffer` is an
`io.WriterTo`: one `Write` of the unread bytes `b.buf[b.off:]` when there are any,
`b.off` advanced by the count; on success the buffer is reset. -/
def Buffer.WriteTo (b : Buffer) (os : OS) (fs : Files) (name : String) :
    Buffer × Files × Option String :=
  if 0 < b.Len then
    match fileWrite os fs name b.Bytes with
    | (fs1, m, some e) => ({ buf := b.buf, off := b.off + m }, fs1, some e)
    | (fs1, m, none) =>
      if m ≠ b.Len then ({ buf := b.buf, off := b.off + m }, fs1, some "short write")
      else (b.Reset, fs1, none)
  else (b.Reset, fs, none)

/-- What a worker leaves behind: the local files and the lines it logged. -/
structure World where
  files : Files
  log : List String
deriving DecidableEq, Repr

/-! ## The key channel -/

/-- The channel `c` of `keys`: the keys sent on it so far, in order, and whether it
has been closed.  Every send is taken to find a receiver. -/
structure Chan where
  sent : List String
  closed : Bool
deriving DecidableEq, Repr

/-- Go: `make(chan string)`. -/
def Chan.make : Chan := { sent := [], closed := false }

/-- Go: `c <- k`; a send on a closed channel panics. -/
def Chan.send (c : Chan) (k : String) : Except String Chan :=
  if c.closed then .error "send on closed channel"
  else .ok { sent := c.sent ++ [k], closed := false }

/-- Go: `close(c)`; closing a closed channel panics. -/
def Chan.close (c : Chan) : Except String Chan :=
  if c.closed then .error "close of closed channel"
  else .ok { sent := c.sent, closed := true }

/-! ## `keys` -/

/-- Source `keys`, the loop `for _, cont := range p.Contents` of the page callback:
a nil entry or a nil `Key` is skipped, every other key is sent. -/
def sendContents : List (Option Object) → Chan → Except String Chan
  | [], c => .ok c
  | none :: rest, c => sendContents rest c
  | some cont :: rest, c =>
    match cont.Key with
    | none => sendContents rest c
    | some k =>
      match c.send k with
      | .error e => .error e
      | .ok c1 => sendContents rest c1

/-- Source `keys`, the page callback `fn(p, last)`: returns early, with `true`, on
a nil page or nil `Contents`; otherwise sends the keys of the page, closes the
channel when `last`, and returns `true`. -/
def fn (p : Option ListObjectsV2Output) (last : Bool) (c : Chan) : Except String (Chan × Bool) :=
  match p with
  | none => .ok (c, true)
  | some page =>
    match page.Contents with
    | none => .ok (c, true)
    | some contents =>
      match sendContents contents c with
      | .error e => .error e
      | .ok c1 =>
        if last then
          match c1.close with
          | .error e => .error e
          | .ok c2 => .ok (c2, true)
        else .ok (c1, true)

/-- AWS SDK: `ListObjectsV2Pages(input, fn)`: the callback is run on each page in
turn, until it returns `false` or the pages end; the listing error is returned
when the pages ended with one. -/
def ListObjectsV2Pages (pages : List (Option ListObjectsV2Output × Bool)) (err : Option String)
    (c : Chan) : Except String (Chan × Option String) :=
  match pages with
  | [] => .ok (c, err)
  | (p, last) :: rest =>
    match fn p last c with
    | .error e => .error e
    | .ok (c1, next) =>
      if next then ListObjectsV2Pages rest err c1 else .ok (c1, none)

/-- What the goroutine of `keys` has done when it ends: the channel, what it wrote
to standard error, the status of `os.Exit` if it called it, and the panic if one
was raised. -/
structure KeysRun where
  chan : Chan
  stderr : List String
  exit : Option Nat
  panic : Option String
deriving DecidableEq, Repr

/-- Source `keys(s, bucket, prefix)`: the goroutine lists the pages through `fn`; on a
listing error it prints `Could not fetch keys from <bucket>/<prefix>: <err>` and
exits with status 1. -/
def keys (s : S3) (bucket pfx : String) : KeysRun :=
  let l := s.ListObjectsV2 bucket pfx
  match ListObjectsV2Pages l.pages l.err Chan.make with
  | .error e => { chan := Chan.make, stderr := [], exit := none, panic := some e }
  | .ok (c, none) => { chan := c, stderr := [], exit := none, panic := none }
  | .ok (c, some err) =>
    { chan := c
      stderr := ["Could not fetch keys from " ++ bucket ++ "/" ++ pfx ++ ": " ++ err ++ "\n"]
      exit := some 1
      panic := none }

/-! ## `grepInKey` and `grepFor` -/

/-- Source `grepInKey(s, bucket, key, target, buf)`: the result, the buffer as it is
left, and the lines logged.  A failed `GetObject` or a failed read is logged and
gives `false`; otherwise the result is `bytes.Contains(buf.Bytes(), target)`. -/
def grepInKey (s : S3) (bucket key : String) (target : List Byte) (buf : Buffer) :
    Bool × Buffer × List String :=
  match s.GetObject bucket key with
  | .error err => (false, buf, ["Could not get " ++ key ++ ": " ++ err])
  | .ok out =>
    match buf.ReadFrom out with
    | (buf1, some err) => (false, buf1, ["Could not from s3 " ++ key ++ ": " ++ err])
    | (buf1, none) => (bytesContains buf1.Bytes target, buf1, [])

/-- Source `grepFor`, the body of the loop `for k := range keys` for the key `k`, on
the buffer and the world reached so far: reset the buffer, `grepInKey`, and on
`true` create the file `path.Base(k)`, copy the buffer into it and close it; a
failed create (`continue`) or a failed copy is logged and the iteration ends. -/
def grepForBody (s : S3) (os : OS) (bucket : String) (target : List Byte)
    (st : Buffer × World) (k : String) : Buffer × World :=
  let buf0 := st.1.Reset
  match grepInKey s bucket k target buf0 with
  | (false, buf1, msgs) => (buf1, { files := st.2.files, log := st.2.log ++ msgs })
  | (true, buf1, msgs) =>
    match osCreate os st.2.files (pathBase k) with
    | .error err =>
      (buf1, { files := st.2.files
               log := st.2.log ++ msgs ++
                 ["Could not open output file " ++ pathBase k ++ ": " ++ err] })
    | .ok fs1 =>
      match buf1.WriteTo os fs1 (pathBase k) with
      | (buf2, fs2, some err) =>
        (buf2, { files := fs2
                 log := st.2.log ++ msgs ++
                   ["Could not write to " ++ pathBase k ++ ": " ++ err] })
      | (buf2, fs2, none) => (buf2, { files := fs2, log := st.2.log ++ msgs })

/-- Source `grepFor`, the loop `for k := range keys` over the keys received, in the
order received, from a buffer and a world. -/
def grepForLoop (s : S3) (os : OS) (bucket : String) (target : List Byte)
    (keys : List String) (st : Buffer × World) : Buffer × World :=
  keys.foldl (grepForBody s os bucket target) st

/-- What a worker has done: the world it leaves, and whether `grepFor` returned,
which it does when its `range` over the channel ends, that is when the channel
has been closed. -/
structure WorkerRun where
  world : World
  returned : Bool
deriving DecidableEq, Repr

/-- Source `grepFor(s, bucket, target, keys)`, run by one worker that receives every
key sent on the channel, from the world `w`: a fresh `bytes.Buffer{}`, then the
loop over the keys. -/
def grepFor (s : S3) (os : OS) (bucket : String) (target : List Byte) (keys : Chan)
    (w : World) : WorkerRun :=
  { world := (grepForLoop s os bucket target keys.sent (Buffer.zero, w)).2
    returned := keys.closed }

/-- The bytes of a string, as `[]byte(s)` gives them: its UTF-8 encoding. -/
def bytesOf (s : String) : List Byte := s.data.flatMap String.utf8EncodeChar

/-- A body that delivers the bytes of a string in one chunk and ends with `io.EOF`. -/
def Body.ofString (s : String) : Body := { chunks := [bytesOf s], err := none }

/-- A file system without faults. -/
def OS.faultFree : OS := { createErr := fun _ => none, writeErr := fun _ => none }

/-- The empty directory and an empty log. -/
def World.empty : World := { files := [], log := [] }

/-! ## Vocabulary of the properties -/

/-- The keys of the entries of a page's `Contents` that have one, in order. -/
def keysOfContents : List (Option Object) → List String
  | [] => []
  | none :: rest => keysOfContents rest
  | some cont :: rest =>
    match cont.Key with
    | none => keysOfContents rest
    | some k => k :: keysOfContents rest

/-- The keys a page lists: none for a nil page or nil `Contents`. -/
def keysOfPage (p : Option ListObjectsV2Output) : List String :=
  match p with
  | none => []
  | some page =>
    match page.Contents with
    | none => []
    | some contents => keysOfContents contents

/-- The keys of all pages of a listing, in page order and within-page order. -/
def Listing.allKeys (l : Listing) : List String :=
  l.pages.flatMap (fun d => keysOfPage d.1)

/-- `last` is `true` on the final page handed to the callback and on no other;
there is a final page. -/
def lastOnFinalOnly : List (Option ListObjectsV2Output × Bool) → Bool
  | [] => false
  | [(_, last)] => last
  | (_, last) :: rest => !last && lastOnFinalOnly rest

/-- A fault-free listing: the listing call returns no error, and the pages reach the
callback with `last = true` on exactly the final one. -/
def Listing.FaultFree (l : Listing) : Prop :=
  l.err = none ∧ lastOnFinalOnly l.pages = true

instance (l : Listing) : Decidable l.FaultFree := by
  unfold Listing.FaultFree; infer_instance

/-- A listing that fails with the error `e`: the call for some page fails, so every
page handed to the callback before had a successor, `last = false`. -/
def Listing.FailsWith (l : Listing) (e : String) : Prop :=
  l.err = some e ∧ l.pages.all (fun d => !d.2) = true

instance (l : Listing) (e : String) : Decidable (l.FailsWith e) := by
  unfold Listing.FailsWith; infer_instance

/-- The final page of the listing is non-nil and has non-nil `Contents`: the case in
which the callback reaches its `close(c)`. -/
def finalPageHasContents : List (Option ListObjectsV2Output × Bool) → Bool
  | [] => false
  | [(p, _)] =>
    match p with
    | none => false
    | some page => page.Contents.isSome
  | _ :: rest => finalPageHasContents rest

/-! ## Vocabulary of the worker's properties -/

/-- The content of the object of a key: the bytes of its body, when the fetch
succeeds and the body is read to its end without error. -/
def S3.contentOf (s : S3) (bucket key : String) : Option (List Byte) :=
  match s.GetObject bucket key with
  | .error _ => none
  | .ok out =>
    match out.err with
    | some _ => none
    | none => some out.content

/-- The object of a key is fetched and read, and its content contains the target. -/
def S3.isMatch (s : S3) (bucket : String) (target : List Byte) (key : String) : Bool :=
  match s.contentOf bucket key with
  | none => false
  | some c => bytesContains c target

/-- The local file system has no fault: every create and every write succeeds. -/
def OS.NoFaults (os : OS) : Prop :=
  (∀ n, os.createErr n = none) ∧ (∀ n, os.writeErr n = none)

/-- A file is persisted: created or truncated under the name, then given the data. -/
def Files.put (fs : Files) (name : String) (data : List Byte) : Files :=
  (fs.truncate name).append name data

/-- The files after `os.Create(name)` and the `io.Copy` of a buffer holding `c`, as in
the loop of `grepFor`: unchanged when the create fails. -/
def persist (os : OS) (fs : Files) (name : String) (c : List Byte) : Files :=
  match osCreate os fs name with
  | .error _ => fs
  | .ok fs1 => (Buffer.WriteTo { buf := c, off := 0 } os fs1 name).2.1

/-- P1 as stated, for the keys `K` of a listing and the files a run leaves: every key
of `K` that is a match has the file named `path.Base` of the key, holding the
content of the key; no key of `K` that is not a match has a file under its name;
and the files are, name by name, one for each matching key of `K`. -/
def Completeness (s : S3) (bucket : String) (target : List Byte) (K : List String)
    (files : Files) : Prop :=
  (∀ k ∈ K, s.isMatch bucket target k = true →
      files.get (pathBase k) = s.contentOf bucket k) ∧
    (∀ k ∈ K, s.isMatch bucket target k = false → files.get (pathBase k) = none) ∧
    (files.map Prod.fst).Perm ((K.filter (s.isMatch bucket target)).map pathBase)

/-! ## Concrete stores -/

/-- A listing entry with a key. -/
def entry (k : String) : Option Object := some { Key := some k }

/-- A store with two objects under `logs/`, listed over two pages, the first of which
also holds a nil entry and an entry with a nil `Key`. -/
def logsS3 : S3 :=
  { GetObject := fun _ k =>
      if k = "logs/a.txt" then .ok (Body.ofString "hello world")
      else if k = "logs/b.txt" then .ok (Body.ofString "goodbye")
      else .error "NoSuchKey"
    ListObjectsV2 := fun _ _ =>
      { pages :=
          [(some { Contents := some [entry "logs/a.txt", none, some { Key := none }] }, false),
           (some { Contents := some [entry "logs/b.txt"] }, true)]
        err := none } }

/-- A store whose listing matches no key: one page, the last, with nil `Contents`. -/
def emptyS3 : S3 :=
  { GetObject := fun _ _ => .error "NoSuchKey"
    ListObjectsV2 := fun _ _ => { pages := [(some { Contents := none }, true)], err := none } }

/-- A store whose listing ends with a nil page after a page with one key. -/
def nilLastS3 : S3 :=
  { GetObject := fun _ _ => .ok (Body.ofString "hello")
    ListObjectsV2 := fun _ _ =>
      { pages := [(some { Contents := some [entry "a"] }, false), (none, true)]
        err := none } }

/-- A store whose listing ends with a page with nil `Contents` after a page with one
key. -/
def nilContentsLastS3 : S3 :=
  { GetObject := fun _ _ => .ok (Body.ofString "hello")
    ListObjectsV2 := fun _ _ =>
      { pages := [(some { Contents := some [entry "a"] }, false),
                  (some { Contents := none }, true)]
        err := none } }

/-- A store whose listing fails on its second page, after a page with the key `x.txt`. -/
def failingS3 : S3 :=
  { GetObject := fun _ _ => .ok (Body.ofString "hello")
    ListObjectsV2 := fun _ _ =>
      { pages := [(some { Contents := some [entry "x.txt"] }, false)]
        err := some "RequestError" } }

/-- A store in which the read of the object `p` fails after the bytes `hello` have
been delivered, and the object `q` holds `world`. -/
def partialS3 : S3 :=
  { GetObject := fun _ k =>
      if k = "p" then .ok { chunks := [bytesOf "hello"], err := some "connection reset" }
      else if k = "q" then .ok (Body.ofString "world")
      else .error "NoSuchKey"
    ListObjectsV2 := fun _ _ =>
      { pages := [(some { Contents := some [entry "p", entry "q"] }, true)], err := none } }

/-- The store `logsS3` with a fault injected: the fetch of `logs/a.txt` fails. -/
def logsFaultS3 : S3 :=
  { GetObject := fun b k =>
      if k = "logs/a.txt" then .error "RequestTimeout" else logsS3.GetObject b k
    ListObjectsV2 := logsS3.ListObjectsV2 }

/-- A store with two distinct keys that share their last path element; both objects
contain `hello`. -/
def collideS3 : S3 :=
  { GetObject := fun _ k =>
      if k = "a/x.txt" then .ok (Body.ofString "hello world")
      else if k = "b/x.txt" then .ok (Body.ofString "hello there")
      else .error "NoSuchKey"
    ListObjectsV2 := fun _ _ =>
      { pages := [(some { Contents := some [entry "a/x.txt", entry "b/x.txt"] }, true)]
        err := none } }

/-! # Properties -/

/-! ## The scan -/

theorem hasPrefix_iff (s t : List Byte) : hasPrefix s t = true ↔ t <+: s := by
  induction t generalizing s with
  | nil => simp [hasPrefix]
  | cons a t ih =>
    cases s with
    | nil => simp [hasPrefix]
    | cons b s =>
      simp only [hasPrefix, Bool.and_eq_true, beq_iff_eq, ih, List.cons_prefix_cons]
      constructor
      · rintro ⟨h1, h2⟩; exact ⟨h1.symm, h2⟩
      · rintro ⟨h1, h2⟩; exact ⟨h1.symm, h2⟩

theorem indexFound_iff (s t : List Byte) : indexFound s t = true ↔ t <:+: s := by
  induction s with
  | nil =>
    simp only [indexFound, hasPrefix_iff]
    constructor
    · intro h; exact h.isInfix
    · intro h; rw [List.infix_nil] at h; subst h; exact List.nil_prefix
  | cons b s ih =>
    simp only [indexFound, Bool.or_eq_true, hasPrefix_iff, ih, List.infix_cons_iff]

theorem bytesContains_iff (b t : List Byte) :
    bytesContains b t = true ↔ ∃ u v, b = u ++ t ++ v := by
  unfold bytesContains
  rw [indexFound_iff]
  constructor
  · rintro ⟨u, v, h⟩; exact ⟨u, v, h.symm⟩
  · rintro ⟨u, v, h⟩; exact ⟨u, v, h.symm⟩

theorem readChunks_eq (b : Buffer) (cs : List (List Byte)) :
    b.readChunks cs = { buf := b.buf ++ cs.flatten, off := b.off } := by
  induction cs generalizing b with
  | nil => simp [Buffer.readChunks]
  | cons m rest ih => simp [Buffer.readChunks, ih, List.append_assoc]

theorem ReadFrom_zero (r : Body) :
    Buffer.zero.ReadFrom r = ({ buf := r.content, off := 0 }, r.err) := by
  simp [Buffer.ReadFrom, readChunks_eq, Buffer.zero, Body.content]

/-- C2: `grepInKey`, called with an empty buffer, returns `true` exactly when the fetch
succeeds, the body is read to its end without error, and the content of the
object is `u ++ target ++ v` for some byte sequences `u` and `v`; with an empty
target it returns `true` for every key that is fetched and read. -/
theorem grepInKey_true_iff (s : S3) (bucket key : String) (target : List Byte) :
    ((grepInKey s bucket key target Buffer.zero).1 = true ↔
      ∃ out, s.GetObject bucket key = .ok out ∧ out.err = none ∧
        ∃ u v, out.content = u ++ target ++ v) ∧
    (∀ out, s.GetObject bucket key = .ok out → out.err = none →
      (grepInKey s bucket key [] Buffer.zero).1 = true) := by
  have key_eq : ∀ (t : List Byte) (out : Body), s.GetObject bucket key = .ok out →
      out.err = none →
      (grepInKey s bucket key t Buffer.zero).1 = bytesContains out.content t := by
    intro t out hget herr
    simp [grepInKey, hget, ReadFrom_zero, herr, Buffer.Bytes]
  constructor
  · constructor
    · intro h
      cases hget : s.GetObject bucket key with
      | error e => simp [grepInKey, hget] at h
      | ok out =>
        cases herr : out.err with
        | some e => simp [grepInKey, hget, ReadFrom_zero, herr] at h
        | none =>
          rw [key_eq target out hget herr] at h
          exact ⟨out, rfl, herr, (bytesContains_iff _ _).1 h⟩
    · rintro ⟨out, hget, herr, huv⟩
      rw [key_eq target out hget herr]
      exact (bytesContains_iff _ _).2 huv
  · intro out hget herr
    rw [key_eq [] out hget herr]
    exact (bytesContains_iff _ _).2 ⟨[], out.content, by simp⟩

/-! ## The enumerator -/

theorem sendContents_open (contents : List (Option Object)) (sent : List String) :
    sendContents contents { sent := sent, closed := false } =
      .ok { sent := sent ++ keysOfContents contents, closed := false } := by
  induction contents generalizing sent with
  | nil => simp [sendContents, keysOfContents]
  | cons cont rest ih =>
    cases cont with
    | none => simp [sendContents, keysOfContents, ih]
    | some o =>
      cases hk : o.Key with
      | none => simp [sendContents, keysOfContents, hk, ih]
      | some k => simp [sendContents, keysOfContents, hk, Chan.send, ih]

theorem fn_not_last (p : Option ListObjectsV2Output) (sent : List String) :
    fn p false { sent := sent, closed := false } =
      .ok ({ sent := sent ++ keysOfPage p, closed := false }, true) := by
  cases p with
  | none => simp [fn, keysOfPage]
  | some page =>
    cases hc : page.Contents with
    | none => simp [fn, keysOfPage, hc]
    | some contents => simp [fn, keysOfPage, hc, sendContents_open]

theorem fn_last (p : Option ListObjectsV2Output) (sent : List String) :
    fn p true { sent := sent, closed := false } =
      .ok ({ sent := sent ++ keysOfPage p, closed := finalPageHasContents [(p, true)] }, true) := by
  cases p with
  | none => simp [fn, keysOfPage, finalPageHasContents]
  | some page =>
    cases hc : page.Contents with
    | none => simp [fn, keysOfPage, hc, finalPageHasContents]
    | some contents =>
      simp [fn, keysOfPage, hc, sendContents_open, Chan.close, finalPageHasContents]

theorem pages_faultFree (pages : List (Option ListObjectsV2Output × Bool)) (err : Option String)
    (sent : List String) (h : lastOnFinalOnly pages = true) :
    ListObjectsV2Pages pages err { sent := sent, closed := false } =
      .ok ({ sent := sent ++ pages.flatMap (fun d => keysOfPage d.1),
             closed := finalPageHasContents pages }, err) := by
  induction pages generalizing sent with
  | nil => simp [lastOnFinalOnly] at h
  | cons d rest ih =>
    obtain ⟨p, last⟩ := d
    cases rest with
    | nil =>
      simp only [lastOnFinalOnly] at h
      subst h
      simp [ListObjectsV2Pages, fn_last]
    | cons d2 rest2 =>
      simp only [lastOnFinalOnly, Bool.and_eq_true, Bool.not_eq_true'] at h
      obtain ⟨h1, h2⟩ := h
      subst h1
      rw [ListObjectsV2Pages, fn_not_last]
      simp only [if_true]
      rw [ih _ h2]
      simp [finalPageHasContents, List.append_assoc]

theorem pages_not_last (pages : List (Option ListObjectsV2Output × Bool)) (err : Option String)
    (sent : List String) (h : pages.all (fun d => !d.2) = true) :
    ListObjectsV2Pages pages err { sent := sent, closed := false } =
      .ok ({ sent := sent ++ pages.flatMap (fun d => keysOfPage d.1), closed := false }, err) := by
  induction pages generalizing sent with
  | nil => simp [ListObjectsV2Pages]
  | cons d rest ih =>
    obtain ⟨p, last⟩ := d
    simp only [List.all_cons, Bool.and_eq_true, Bool.not_eq_true'] at h
    obtain ⟨h1, h2⟩ := h
    subst h1
    rw [ListObjectsV2Pages, fn_not_last]
    simp only [if_true]
    rw [ih _ h2]
    simp [List.append_assoc]

/-- The run of `keys` on a fault-free listing: every listed key is sent, nothing
fails, and the channel is closed exactly when the final page is non-nil with
non-nil `Contents`. -/
theorem keys_faultFree (s : S3) (bucket pfx : String)
    (h : (s.ListObjectsV2 bucket pfx).FaultFree) :
    keys s bucket pfx =
      { chan := { sent := (s.ListObjectsV2 bucket pfx).allKeys
                  closed := finalPageHasContents (s.ListObjectsV2 bucket pfx).pages }
        stderr := [], exit := none, panic := none } := by
  obtain ⟨herr, hlast⟩ := h
  simp [keys, Chan.make, pages_faultFree _ _ _ hlast, herr, Listing.allKeys]

theorem keysOfContents_append (xs ys : List (Option Object)) :
    keysOfContents (xs ++ ys) = keysOfContents xs ++ keysOfContents ys := by
  induction xs with
  | nil => simp [keysOfContents]
  | cons x rest ih =>
    cases x with
    | none => simpa [keysOfContents] using ih
    | some o =>
      cases hk : o.Key with
      | none => simpa [keysOfContents, hk] using ih
      | some k => simp [keysOfContents, hk, ih]

/-- C5: on a fault-free listing the keys sent by `keys` are the keys of the listing
entries that have one, in page order and within-page order, with no panic, no
exit and nothing on standard error; a nil entry or an entry with a nil `Key`
contributes nothing and the entries around it keep theirs. -/
theorem keys_sends_listed_keys (s : S3) (bucket pfx : String)
    (h : (s.ListObjectsV2 bucket pfx).FaultFree) :
    (keys s bucket pfx).chan.sent =
        (s.ListObjectsV2 bucket pfx).pages.flatMap (fun d => keysOfPage d.1) ∧
      (keys s bucket pfx).panic = none ∧
      (keys s bucket pfx).exit = none ∧
      (keys s bucket pfx).stderr = [] ∧
      (∀ xs ys, keysOfContents (xs ++ none :: ys) = keysOfContents xs ++ keysOfContents ys) ∧
      (∀ xs ys, keysOfContents (xs ++ some { Key := none } :: ys) =
        keysOfContents xs ++ keysOfContents ys) ∧
      (∀ xs ys k, keysOfContents (xs ++ some { Key := some k } :: ys) =
        keysOfContents xs ++ k :: keysOfContents ys) := by
  rw [keys_faultFree s bucket pfx h]
  refine ⟨rfl, rfl, rfl, rfl, ?_, ?_, ?_⟩
  · intro xs ys; simp [keysOfContents_append, keysOfContents]
  · intro xs ys; simp [keysOfContents_append, keysOfContents]
  · intro xs ys k; simp [keysOfContents_append, keysOfContents]

theorem keys_sends_listed_keys_witness :
    (logsS3.ListObjectsV2 "bkt" "logs/").FaultFree ∧
      (keys logsS3 "bkt" "logs/").chan.sent = ["logs/a.txt", "logs/b.txt"] :=
  ⟨by decide, (keys_sends_listed_keys logsS3 "bkt" "logs/" (by decide)).1.trans (by decide)⟩

/-- C7: when the listing fails with an error, after any number of pages, `keys` writes
`Could not fetch keys from <bucket>/<prefix>: <error>` to standard error and
exits with status 1; the keys sent are those of the pages delivered before the
failure, and the channel is not closed. -/
theorem keys_listing_failure (s : S3) (bucket pfx e : String)
    (h : (s.ListObjectsV2 bucket pfx).FailsWith e) :
    (keys s bucket pfx).stderr =
        ["Could not fetch keys from " ++ bucket ++ "/" ++ pfx ++ ": " ++ e ++ "\n"] ∧
      (keys s bucket pfx).exit = some 1 ∧
      (keys s bucket pfx).chan.sent =
        (s.ListObjectsV2 bucket pfx).pages.flatMap (fun d => keysOfPage d.1) ∧
      (keys s bucket pfx).chan.closed = false ∧
      (keys s bucket pfx).panic = none := by
  obtain ⟨herr, hlast⟩ := h
  simp [keys, Chan.make, pages_not_last _ _ _ hlast, herr]

theorem keys_listing_failure_witness :
    (failingS3.ListObjectsV2 "bkt" "logs/").FailsWith "RequestError" ∧
      (keys failingS3 "bkt" "logs/").stderr =
        ["Could not fetch keys from bkt/logs/: RequestError\n"] ∧
      (keys failingS3 "bkt" "logs/").exit = some 1 ∧
      (keys failingS3 "bkt" "logs/").chan.sent = ["x.txt"] ∧
      (keys failingS3 "bkt" "logs/").chan.closed = false :=
  have h := keys_listing_failure failingS3 "bkt" "logs/" "RequestError" (by decide)
  ⟨by decide, h.1.trans (by decide), h.2.1, h.2.2.1.trans (by decide), h.2.2.2.1⟩

/-- C3: on the listing that matches no key, a single last page with nil `Contents`,
`keys` sends nothing and returns from the callback before `close(c)`: the channel
stays open, so the worker's `range` never ends and `grepFor` does not return. -/
theorem keys_empty_listing_not_closed :
    (emptyS3.ListObjectsV2 "bkt" "none/").FaultFree ∧
      (emptyS3.ListObjectsV2 "bkt" "none/").allKeys = [] ∧
      keys emptyS3 "bkt" "none/" =
        { chan := { sent := [], closed := false }, stderr := [], exit := none, panic := none } ∧
      grepFor emptyS3 OS.faultFree "bkt" (bytesOf "hello") (keys emptyS3 "bkt" "none/").chan
          World.empty =
        { world := World.empty, returned := false } := by
  decide

/-- C4: on a fault-free listing whose final page is nil, and on one whose final page
has nil `Contents`, `keys` sends the key of the first page and never closes the
channel. -/
theorem keys_nil_last_page_not_closed :
    (nilLastS3.ListObjectsV2 "bkt" "").FaultFree ∧
      keys nilLastS3 "bkt" "" =
        { chan := { sent := ["a"], closed := false }, stderr := [], exit := none,
          panic := none } ∧
      (nilContentsLastS3.ListObjectsV2 "bkt" "").FaultFree ∧
      keys nilContentsLastS3 "bkt" "" =
        { chan := { sent := ["a"], closed := false }, stderr := [], exit := none,
          panic := none } := by
  decide

/-! ## The worker -/

theorem OS.faultFree_noFaults : OS.faultFree.NoFaults := ⟨fun _ => rfl, fun _ => rfl⟩

theorem Files.append_nil (fs : Files) (name : String) : fs.append name [] = fs := by
  induction fs with
  | nil => rfl
  | cons e rest ih =>
    obtain ⟨n, d⟩ := e
    by_cases h : n = name <;> simp [Files.append, h, ih]

theorem WriteTo_noFaults (os : OS) (c : List Byte) (fs : Files)
    (name : String) (hw : os.writeErr name = none) :
    (Buffer.WriteTo { buf := c, off := 0 } os fs name) =
      (Buffer.zero, fs.append name c, none) := by
  cases c with
  | nil => simp [Buffer.WriteTo, Buffer.Len, Buffer.Reset, Buffer.zero, Files.append_nil]
  | cons b bs =>
    simp [Buffer.WriteTo, Buffer.Len, Buffer.Reset, Buffer.zero, fileWrite, hw,
      Buffer.Bytes]

theorem grepInKey_reset (s : S3) (bucket k : String) (target : List Byte) (b : Buffer) :
    grepInKey s bucket k target b.Reset =
      match s.GetObject bucket k with
      | .error err => (false, Buffer.zero, ["Could not get " ++ k ++ ": " ++ err])
      | .ok out =>
        match out.err with
        | some err =>
          (false, { buf := out.content, off := 0 }, ["Could not from s3 " ++ k ++ ": " ++ err])
        | none => (bytesContains out.content target, { buf := out.content, off := 0 }, []) := by
  have hz : b.Reset = Buffer.zero := rfl
  rw [hz]
  cases hget : s.GetObject bucket k with
  | error e => simp [grepInKey, hget]
  | ok out =>
    cases herr : out.err with
    | some e => simp [grepInKey, hget, ReadFrom_zero, herr]
    | none => simp [grepInKey, hget, ReadFrom_zero, herr, Buffer.Bytes]

theorem persist_ok (os : OS) (fs : Files) (name : String) (c : List Byte)
    (hc : os.createErr name = none) (hw : os.writeErr name = none) :
    persist os fs name c = fs.put name c := by
  simp [persist, osCreate, hc, WriteTo_noFaults os c _ name hw, Files.put]

/-- The files after one iteration of the worker: the object is persisted under
`path.Base k` when it is a match, and nothing changes otherwise. -/
theorem grepForBody_files_any (s : S3) (os : OS) (bucket : String)
    (target : List Byte) (st : Buffer × World) (k : String) :
    (grepForBody s os bucket target st k).2.files =
      match s.contentOf bucket k with
      | none => st.2.files
      | some c =>
        if bytesContains c target = true then persist os st.2.files (pathBase k) c
        else st.2.files := by
  unfold grepForBody
  simp only [grepInKey_reset, S3.contentOf]
  cases hget : s.GetObject bucket k with
  | error e => simp
  | ok out =>
    cases herr : out.err with
    | some e => simp [herr]
    | none =>
      cases hm : bytesContains out.content target with
      | false => simp [herr, hm]
      | true =>
        simp only [herr, hm, persist, if_true]
        cases hcr : osCreate os st.2.files (pathBase k) with
        | error e => rfl
        | ok fs1 =>
          simp only
          generalize Buffer.WriteTo { buf := out.content, off := 0 } os fs1 (pathBase k) = r
          obtain ⟨buf2, fs2, err⟩ := r
          cases err <;> rfl

/-- The files after one iteration of the worker, on a file system without faults: the
object is persisted under `path.Base k` when it is a match, and nothing changes
otherwise. -/
theorem grepForBody_files (s : S3) (os : OS) (hos : os.NoFaults) (bucket : String)
    (target : List Byte) (st : Buffer × World) (k : String) :
    (grepForBody s os bucket target st k).2.files =
      match s.contentOf bucket k with
      | none => st.2.files
      | some c =>
        if bytesContains c target = true then st.2.files.put (pathBase k) c else st.2.files := by
  rw [grepForBody_files_any]
  cases s.contentOf bucket k with
  | none => rfl
  | some c => simp only [persist_ok os _ _ c (hos.1 _) (hos.2 _)]

/-! ## Files -/

theorem Files.get_truncate_self (fs : Files) (n : String) : (fs.truncate n).get n = some [] := by
  induction fs with
  | nil => simp [Files.truncate, Files.get]
  | cons e rest ih =>
    obtain ⟨m, d⟩ := e
    by_cases h : m = n <;> simp [Files.truncate, Files.get, h, ih]

theorem Files.get_truncate_other (fs : Files) (n m : String) (hmn : m ≠ n) :
    (fs.truncate n).get m = fs.get m := by
  induction fs with
  | nil => simp [Files.truncate, Files.get, Ne.symm hmn]
  | cons e rest ih =>
    obtain ⟨a, d⟩ := e
    by_cases h : a = n
    · subst h; simp [Files.truncate, Files.get, Ne.symm hmn]
    · by_cases h2 : a = m
      · subst h2; simp [Files.truncate, Files.get, h]
      · simp [Files.truncate, Files.get, h, h2, ih]

theorem Files.get_append_self (fs : Files) (n : String) (d data : List Byte)
    (h : fs.get n = some d) : (fs.append n data).get n = some (d ++ data) := by
  induction fs with
  | nil => simp [Files.get] at h
  | cons e rest ih =>
    obtain ⟨a, d0⟩ := e
    by_cases ha : a = n
    · simp [Files.get, ha] at h; simp [Files.append, Files.get, ha, h]
    · simp [Files.get, ha] at h; simp [Files.append, Files.get, ha, ih h]

theorem Files.get_append_other (fs : Files) (n m : String) (data : List Byte) (hmn : m ≠ n) :
    (fs.append n data).get m = fs.get m := by
  induction fs with
  | nil => simp [Files.append]
  | cons e rest ih =>
    obtain ⟨a, d⟩ := e
    by_cases h : a = n
    · subst h; simp [Files.append, Files.get, Ne.symm hmn]
    · by_cases h2 : a = m
      · subst h2; simp [Files.append, Files.get, h]
      · simp [Files.append, Files.get, h, h2, ih]

theorem Files.get_put_self (fs : Files) (n : String) (c : List Byte) :
    (fs.put n c).get n = some c := by
  unfold Files.put
  rw [Files.get_append_self _ n [] c (Files.get_truncate_self fs n)]
  simp

theorem Files.get_put_other (fs : Files) (n m : String) (c : List Byte) (hmn : m ≠ n) :
    (fs.put n c).get m = fs.get m := by
  unfold Files.put
  rw [Files.get_append_other _ n m c hmn, Files.get_truncate_other fs n m hmn]

/-! ## `path.Base` -/

theorem stripTrailingSlashes_eq (p : List Char) (hend : p.getLast? ≠ some '/') :
    stripTrailingSlashes p = p := by
  induction p with
  | nil => rfl
  | cons c cs ih =>
    cases cs with
    | nil =>
      have hc : c ≠ '/' := by simpa using hend
      simp [stripTrailingSlashes, hc]
    | cons d ds =>
      have h2 : (d :: ds).getLast? ≠ some '/' := by
        simpa [List.getLast?_cons_cons] using hend
      rw [stripTrailingSlashes, ih h2]

theorem afterLastSlash_no_slash (p : List Char) : '/' ∉ afterLastSlash p := by
  induction p with
  | nil => simp [afterLastSlash]
  | cons c cs ih =>
    unfold afterLastSlash
    by_cases h : '/' ∈ cs
    · simpa [h] using ih
    · by_cases hc : c = '/'
      · simp [h, hc]
      · simp [h, hc, Ne.symm hc]

theorem afterLastSlash_split (u v : List Char) (hv : '/' ∉ v) :
    afterLastSlash (u ++ '/' :: v) = v := by
  induction u with
  | nil => simp [afterLastSlash, hv]
  | cons a u ih => simp [afterLastSlash, ih]

theorem afterLastSlash_whole (p : List Char) (hp : '/' ∉ p) : afterLastSlash p = p := by
  cases p with
  | nil => rfl
  | cons c cs =>
    simp only [List.mem_cons, not_or] at hp
    simp [afterLastSlash, hp.2, Ne.symm hp.1]

theorem afterLastSlash_ne_nil (p : List Char) (hne : p ≠ []) (hend : p.getLast? ≠ some '/') :
    afterLastSlash p ≠ [] := by
  induction p with
  | nil => exact absurd rfl hne
  | cons c cs ih =>
    cases cs with
    | nil =>
      have hc : c ≠ '/' := by simpa using hend
      simp [afterLastSlash, hc]
    | cons d ds =>
      have h2 : (d :: ds).getLast? ≠ some '/' := by
        simpa [List.getLast?_cons_cons] using hend
      unfold afterLastSlash
      by_cases h : '/' ∈ d :: ds
      · rw [if_pos h]; exact ih (by simp) h2
      · rw [if_neg h]
        by_cases hc : c = '/' <;> simp [hc]

theorem baseChars_eq (p : List Char) (hne : p ≠ []) (hend : p.getLast? ≠ some '/') :
    baseChars p = afterLastSlash p := by
  simp [baseChars, hne, stripTrailingSlashes_eq p hend, afterLastSlash_ne_nil p hne hend]

theorem WriteTo_files (b : Buffer) (os : OS) (fs : Files) (name : String) :
    ∃ x, (b.WriteTo os fs name).2.1 = fs.append name x := by
  unfold Buffer.WriteTo
  by_cases hlen : 0 < b.Len
  · rw [if_pos hlen]
    unfold fileWrite
    cases hw : os.writeErr name with
    | none =>
      by_cases hm : b.Bytes.length ≠ b.Len
      · exact ⟨b.Bytes, by simp [hm]⟩
      · exact ⟨b.Bytes, by simp [hm]⟩
    | some me =>
      obtain ⟨m, e⟩ := me
      exact ⟨b.Bytes.take m, by simp⟩
  · rw [if_neg hlen]
    exact ⟨[], by simp [Files.append_nil]⟩

/-- One iteration of the worker on the key `k` touches no file but `path.Base k`,
whatever the faults of the file system. -/
theorem grepForBody_get_other (s : S3) (os : OS) (bucket : String) (target : List Byte)
    (st : Buffer × World) (k n : String) (hn : n ≠ pathBase k) :
    (grepForBody s os bucket target st k).2.files.get n = st.2.files.get n := by
  simp only [grepForBody]
  generalize grepInKey s bucket k target st.1.Reset = r
  obtain ⟨found, buf1, msgs⟩ := r
  cases found with
  | false => rfl
  | true =>
    simp only [osCreate]
    cases hc : os.createErr (pathBase k) with
    | some e => rfl
    | none =>
      simp only []
      obtain ⟨x, hx⟩ := WriteTo_files buf1 os (st.2.files.truncate (pathBase k)) (pathBase k)
      generalize hr : buf1.WriteTo os (st.2.files.truncate (pathBase k)) (pathBase k) = r at hx
      obtain ⟨buf2, fs2, err⟩ := r
      simp only at hx
      subst hx
      cases err <;>
        simp [Files.get_append_other _ _ _ _ hn, Files.get_truncate_other _ _ _ hn]

/-- One iteration of the worker on a matching key `k` leaves a file named `path.Base k`
when that file can be created. -/
theorem grepForBody_get_base (s : S3) (os : OS) (bucket : String) (target : List Byte)
    (st : Buffer × World) (k : String) (hm : s.isMatch bucket target k = true)
    (hc : os.createErr (pathBase k) = none) :
    ∃ d, (grepForBody s os bucket target st k).2.files.get (pathBase k) = some d := by
  have hfound : (grepInKey s bucket k target st.1.Reset).1 = true := by
    rw [grepInKey_reset]
    unfold S3.isMatch S3.contentOf at hm
    cases hget : s.GetObject bucket k with
    | error e => simp [hget] at hm
    | ok out =>
      cases herr : out.err with
      | some e => simp [hget, herr] at hm
      | none => simpa [hget, herr] using hm
  simp only [grepForBody]
  generalize grepInKey s bucket k target st.1.Reset = r at hfound
  obtain ⟨found, buf1, msgs⟩ := r
  simp only at hfound
  subst hfound
  simp only [osCreate, hc]
  obtain ⟨x, hx⟩ := WriteTo_files buf1 os (st.2.files.truncate (pathBase k)) (pathBase k)
  generalize hr : buf1.WriteTo os (st.2.files.truncate (pathBase k)) (pathBase k) = r at hx
  obtain ⟨buf2, fs2, err⟩ := r
  simp only at hx
  subst hx
  refine ⟨[] ++ x, ?_⟩
  cases err <;>
    simp only [Files.get_append_self _ _ [] x (Files.get_truncate_self _ _)]

theorem stripTrailingSlashes_append_slash (p : List Char) :
    stripTrailingSlashes (p ++ ['/']) = stripTrailingSlashes p := by
  induction p with
  | nil => simp [stripTrailingSlashes]
  | cons c cs ih =>
    show stripTrailingSlashes (c :: (cs ++ ['/'])) = stripTrailingSlashes (c :: cs)
    rw [stripTrailingSlashes, ih, stripTrailingSlashes]

theorem stripTrailingSlashes_append_slashes (p : List Char) (n : Nat) :
    stripTrailingSlashes (p ++ List.replicate n '/') = stripTrailingSlashes p := by
  induction n with
  | zero => simp
  | succ n ih =>
    rw [List.replicate_succ', ← List.append_assoc, stripTrailingSlashes_append_slash, ih]

theorem stripTrailingSlashes_all_slashes (p : List Char) (h : ∀ c ∈ p, c = '/') :
    stripTrailingSlashes p = [] := by
  induction p with
  | nil => rfl
  | cons c cs ih =>
    have hc : c = '/' := h c (List.mem_cons_self _ _)
    simp [stripTrailingSlashes, ih (fun d hd => h d (List.mem_cons_of_mem _ hd)), hc]

theorem baseChars_append_slashes (u : List Char) (n : Nat) (hne : u ≠ [])
    (hend : u.getLast? ≠ some '/') :
    baseChars (u ++ List.replicate n '/') = baseChars u := by
  have h1 : u ++ List.replicate n '/' ≠ [] := by simp [hne]
  simp [baseChars, h1, hne, stripTrailingSlashes_append_slashes, stripTrailingSlashes_eq u hend]

theorem data_ne_nil_of_ne_empty (key : String) (hne : key ≠ "") : key.data ≠ [] := by
  intro h
  apply hne
  cases key
  simp_all

/-- C8: for every key, the iteration of `grepFor` touches no file but the one named
`path.Base key`, and for a matching key it leaves a file of that name (when the
create succeeds).  For a non-empty key that does not end in `'/'` this name is
what follows the final `'/'` of the key (the whole key when it holds none), it
is not empty and holds no `'/'`.  For the other keys: trailing slashes are
dropped before the last element is taken, the empty key gives `"."`, and a key
of slashes only gives `"/"`. -/
theorem grepFor_names_file_by_base (s : S3) (os : OS) (bucket : String) (target : List Byte)
    (st : Buffer × World) (key : String) :
    (s.isMatch bucket target key = true → os.createErr (pathBase key) = none →
        ∃ d, (grepForBody s os bucket target st key).2.files.get (pathBase key) = some d) ∧
      (∀ n, n ≠ pathBase key →
        (grepForBody s os bucket target st key).2.files.get n = st.2.files.get n) ∧
      (key ≠ "" → key.data.getLast? ≠ some '/' →
        (∀ u v, key.data = u ++ '/' :: v → '/' ∉ v → pathBase key = String.mk v) ∧
        ('/' ∉ key.data → pathBase key = key) ∧
        pathBase key ≠ "" ∧
        '/' ∉ (pathBase key).data) ∧
      (∀ u n, u ≠ [] → u.getLast? ≠ some '/' → key.data = u ++ List.replicate n '/' →
        pathBase key = pathBase (String.mk u)) ∧
      (key = "" → pathBase key = ".") ∧
      (key ≠ "" → (∀ c ∈ key.data, c = '/') → pathBase key = "/") := by
  refine ⟨fun hm hc => grepForBody_get_base s os bucket target st key hm hc,
    fun n hn => grepForBody_get_other s os bucket target st key n hn, ?_, ?_, ?_, ?_⟩
  · intro hne hend
    have hne2 : key.data ≠ [] := data_ne_nil_of_ne_empty key hne
    have hb : baseChars key.data = afterLastSlash key.data := baseChars_eq _ hne2 hend
    refine ⟨?_, ?_, ?_, ?_⟩
    · intro u v huv hv
      rw [pathBase, hb, huv, afterLastSlash_split u v hv]
    · intro h
      simp [pathBase, hb, afterLastSlash_whole _ h]
    · intro h
      have h2 : (pathBase key).data = [] := by rw [h]
      simp only [pathBase, hb] at h2
      exact afterLastSlash_ne_nil _ hne2 hend h2
    · simp only [pathBase, hb]
      exact afterLastSlash_no_slash _
  · intro u n hu hend hkey
    simp only [pathBase, hkey, baseChars_append_slashes u n hu hend]
  · intro h
    subst h
    rfl
  · intro hne hall
    have hne2 : key.data ≠ [] := data_ne_nil_of_ne_empty key hne
    simp only [pathBase, baseChars, hne2, stripTrailingSlashes_all_slashes _ hall]
    rfl

theorem grepFor_names_file_by_base_witness :
    ("logs/a.txt" ≠ "" ∧ "logs/a.txt".data.getLast? ≠ some '/' ∧
      logsS3.isMatch "bkt" (bytesOf "hello") "logs/a.txt" = true ∧
      OS.faultFree.createErr (pathBase "logs/a.txt") = none) ∧
      (∃ d, (grepForBody logsS3 OS.faultFree "bkt" (bytesOf "hello") (Buffer.zero, World.empty)
        "logs/a.txt").2.files.get (pathBase "logs/a.txt") = some d) ∧
      pathBase "logs/a.txt" = "a.txt" ∧
      pathBase "a/b/c.txt" = "c.txt" ∧
      pathBase "logs/dir/" = "dir" :=
  have h := grepFor_names_file_by_base logsS3 OS.faultFree "bkt" (bytesOf "hello")
    (Buffer.zero, World.empty) "logs/a.txt"
  have h2 := grepFor_names_file_by_base logsS3 OS.faultFree "bkt" (bytesOf "hello")
    (Buffer.zero, World.empty) "logs/dir/"
  ⟨⟨by decide, by decide, by decide, rfl⟩, h.1 (by decide) rfl,
    (h.2.2.1 (by decide) (by decide)).1 "logs".data "a.txt".data (by decide) (by decide),
    by decide,
    (h2.2.2.2.1 "logs/dir".data 1 (by decide) (by decide) (by decide)).trans (by decide)⟩

theorem grepForLoop_snoc (s : S3) (os : OS) (bucket : String) (target : List Byte)
    (pre : List String) (k : String) (st : Buffer × World) :
    grepForLoop s os bucket target (pre ++ [k]) st =
      grepForBody s os bucket target (grepForLoop s os bucket target pre st) k := by
  simp [grepForLoop, List.foldl_append]

theorem contentOf_of_ok (s : S3) (bucket k : String) (out : Body)
    (hget : s.GetObject bucket k = .ok out) (herr : out.err = none) :
    s.contentOf bucket k = some out.content := by
  simp [S3.contentOf, hget, herr]

theorem contentOf_of_readErr (s : S3) (bucket k : String) (out : Body)
    (hget : s.GetObject bucket k = .ok out) (herr : out.err ≠ none) :
    s.contentOf bucket k = none := by
  cases h : out.err with
  | none => exact absurd h herr
  | some e => simp [S3.contentOf, hget, h]

/-- C10: whatever keys the worker has processed before, for a key whose fetch
succeeds the buffer handed to the scan holds exactly the bytes delivered by that
key's body; when the body is read to its end the scan result is
`bytes.Contains` of the full content, on a match the file `path.Base k`, once
created and written without fault, holds the full content, and otherwise (no
match, or a failed read) no file changes. -/
theorem grepFor_buffer_isolation (s : S3) (os : OS) (bucket : String) (target : List Byte)
    (pre : List String) (k : String) (out : Body) (w0 : World) (closed : Bool)
    (hget : s.GetObject bucket k = .ok out) :
    (grepInKey s bucket k target
        (grepForLoop s os bucket target pre (Buffer.zero, w0)).1.Reset).2.1.Bytes =
        out.content ∧
      (out.err = none →
        (grepInKey s bucket k target
          (grepForLoop s os bucket target pre (Buffer.zero, w0)).1.Reset).1 =
          bytesContains out.content target) ∧
      (out.err = none → bytesContains out.content target = true →
        os.createErr (pathBase k) = none → os.writeErr (pathBase k) = none →
        (grepFor s os bucket target { sent := pre ++ [k], closed := closed } w0).world.files.get
          (pathBase k) = some out.content) ∧
      (out.err = none → bytesContains out.content target = false →
        (grepFor s os bucket target { sent := pre ++ [k], closed := closed } w0).world.files =
          (grepForLoop s os bucket target pre (Buffer.zero, w0)).2.files) ∧
      (out.err ≠ none →
        (grepFor s os bucket target { sent := pre ++ [k], closed := closed } w0).world.files =
          (grepForLoop s os bucket target pre (Buffer.zero, w0)).2.files) := by
  refine ⟨?_, ?_, ?_, ?_, ?_⟩
  · rw [grepInKey_reset, hget]
    cases herr : out.err <;> simp [Buffer.Bytes, herr]
  · intro herr
    rw [grepInKey_reset, hget]
    simp [herr]
  · intro herr hm hc hw
    simp only [grepFor, grepForLoop_snoc]
    rw [grepForBody_files_any, contentOf_of_ok s bucket k out hget herr]
    simp [hm, persist_ok os _ _ _ hc hw, Files.get_put_self]
  · intro herr hm
    simp only [grepFor, grepForLoop_snoc]
    rw [grepForBody_files_any, contentOf_of_ok s bucket k out hget herr]
    simp [hm]
  · intro herr
    simp only [grepFor, grepForLoop_snoc]
    rw [grepForBody_files_any, contentOf_of_readErr s bucket k out hget herr]

theorem grepFor_buffer_isolation_witness :
    partialS3.GetObject "bkt" "q" = .ok (Body.ofString "world") ∧
      (grepForLoop partialS3 OS.faultFree "bkt" (bytesOf "hello") ["p"]
        (Buffer.zero, World.empty)).1.Bytes = bytesOf "hello" ∧
      (grepInKey partialS3 "bkt" "q" (bytesOf "hello")
        (grepForLoop partialS3 OS.faultFree "bkt" (bytesOf "hello") ["p"]
          (Buffer.zero, World.empty)).1.Reset).2.1.Bytes = bytesOf "world" ∧
      (grepFor partialS3 OS.faultFree "bkt" (bytesOf "hello")
        { sent := ["p"] ++ ["q"], closed := true } World.empty).world.files = [] :=
  have h := grepFor_buffer_isolation partialS3 OS.faultFree "bkt" (bytesOf "hello") ["p"] "q"
    (Body.ofString "world") World.empty true rfl
  ⟨rfl, by decide, h.1.trans (by decide), (h.2.2.2.1 rfl (by decide)).trans (by decide)⟩

theorem grepForLoop_files_congr (s1 s2 : S3) (os : OS) (bucket : String)
    (target : List Byte) (ks : List String)
    (hs : ∀ k ∈ ks, s1.contentOf bucket k = s2.contentOf bucket k)
    (st1 st2 : Buffer × World) (h : st1.2.files = st2.2.files) :
    (grepForLoop s1 os bucket target ks st1).2.files =
      (grepForLoop s2 os bucket target ks st2).2.files := by
  induction ks generalizing st1 st2 with
  | nil => simpa [grepForLoop] using h
  | cons k ks ih =>
    simp only [grepForLoop, List.foldl_cons]
    apply ih (fun k2 hk2 => hs k2 (List.mem_cons_of_mem _ hk2))
    rw [grepForBody_files_any s1, grepForBody_files_any s2, hs k (List.mem_cons_self _ _), h]

theorem grepForLoop_skip_failed (s1 s2 : S3) (os : OS) (bucket : String)
    (target : List Byte) (ki : String)
    (hs : ∀ k, k ≠ ki → s1.contentOf bucket k = s2.contentOf bucket k)
    (hfail : s2.contentOf bucket ki = none) (ks : List String)
    (st1 st2 : Buffer × World) (h : st1.2.files = st2.2.files) :
    (grepForLoop s2 os bucket target ks st2).2.files =
      (grepForLoop s1 os bucket target (ks.filter (fun k => k != ki)) st1).2.files := by
  induction ks generalizing st1 st2 with
  | nil => simpa [grepForLoop] using h.symm
  | cons k ks ih =>
    by_cases hk : k = ki
    · subst hk
      simp only [grepForLoop, List.foldl_cons, List.filter_cons, bne_self_eq_false,
        Bool.false_eq_true, if_false]
      apply ih
      rw [grepForBody_files_any s2, hfail, h]
    · have hb : (k != ki) = true := by simpa using hk
      simp only [grepForLoop, List.foldl_cons, List.filter_cons, hb, if_true]
      apply ih
      rw [grepForBody_files_any s1, grepForBody_files_any s2, hs k hk, h]

theorem contentOf_congr (s1 s2 : S3) (bucket k : String)
    (h : s1.GetObject bucket k = s2.GetObject bucket k) :
    s1.contentOf bucket k = s2.contentOf bucket k := by
  simp [S3.contentOf, h]

theorem grepForBody_congr (s1 s2 : S3) (os : OS) (bucket : String) (target : List Byte)
    (st : Buffer × World) (k : String) (h : s1.GetObject bucket k = s2.GetObject bucket k) :
    grepForBody s1 os bucket target st k = grepForBody s2 os bucket target st k := by
  simp [grepForBody, grepInKey, h]

/-- C6: let two stores agree on every key but `ki`, and let the fetch or the read of
`ki` fail in the second.  Under the second store the worker leaves the files it
would leave had `ki` not been among its keys, so the keys after `ki` are
processed; every other key is processed identically under both stores; and
such a key is persisted, under `path.Base` with its full content, when its
content contains the target (and its file is created and written without
fault), and changes no file when it does not. -/
theorem grepFor_fault_isolation (s1 s2 : S3) (os : OS) (bucket : String) (target : List Byte)
    (ki : String)
    (hagree : ∀ k, k ≠ ki → s1.GetObject bucket k = s2.GetObject bucket k)
    (hfail : s2.contentOf bucket ki = none) :
    (∀ pre post closed w,
        (grepFor s2 os bucket target { sent := pre ++ ki :: post, closed := closed } w).world.files =
          (grepFor s2 os bucket target { sent := pre ++ post, closed := closed } w).world.files) ∧
      (∀ ks closed w,
        (grepFor s2 os bucket target { sent := ks, closed := closed } w).world.files =
          (grepFor s1 os bucket target
            { sent := ks.filter (fun k => k != ki), closed := closed } w).world.files) ∧
      (∀ st kj, kj ≠ ki →
        grepForBody s2 os bucket target st kj = grepForBody s1 os bucket target st kj) ∧
      (∀ st kj c, kj ≠ ki → s1.contentOf bucket kj = some c → bytesContains c target = true →
        os.createErr (pathBase kj) = none → os.writeErr (pathBase kj) = none →
        (grepForBody s2 os bucket target st kj).2.files.get (pathBase kj) = some c) ∧
      (∀ st kj, kj ≠ ki → s1.isMatch bucket target kj = false →
        (grepForBody s2 os bucket target st kj).2.files = st.2.files) := by
  have hs : ∀ k, k ≠ ki → s1.contentOf bucket k = s2.contentOf bucket k :=
    fun k hk => contentOf_congr s1 s2 bucket k (hagree k hk)
  refine ⟨?_, ?_, ?_, ?_, ?_⟩
  · intro pre post closed w
    simp only [grepFor, grepForLoop, List.foldl_append, List.foldl_cons]
    apply grepForLoop_files_congr s2 s2 os bucket target post (fun _ _ => rfl)
    rw [grepForBody_files_any s2, hfail]
  · intro ks closed w
    simp only [grepFor]
    exact grepForLoop_skip_failed s1 s2 os bucket target ki hs hfail ks _ _ rfl
  · intro st kj hkj
    exact (grepForBody_congr s1 s2 os bucket target st kj (hagree kj hkj)).symm
  · intro st kj c hkj hc hm hcr hwr
    rw [grepForBody_files_any s2, ← hs kj hkj, hc]
    simp [hm, persist_ok os _ _ _ hcr hwr, Files.get_put_self]
  · intro st kj hkj hm
    rw [grepForBody_files_any s2, ← hs kj hkj]
    unfold S3.isMatch at hm
    cases hc : s1.contentOf bucket kj with
    | none => rfl
    | some c => simp [hc] at hm; simp [hm]

theorem grepFor_fault_isolation_witness :
    ((∀ k, k ≠ "logs/a.txt" → logsS3.GetObject "bkt" k = logsFaultS3.GetObject "bkt" k) ∧
      logsFaultS3.contentOf "bkt" "logs/a.txt" = none) ∧
      (grepFor logsFaultS3 OS.faultFree "bkt" (bytesOf "o")
        { sent := ["logs/a.txt", "logs/b.txt"], closed := true } World.empty).world.files =
        [("b.txt", bytesOf "goodbye")] ∧
      (grepFor logsS3 OS.faultFree "bkt" (bytesOf "o")
        { sent := ["logs/a.txt", "logs/b.txt"], closed := true } World.empty).world.files =
        [("a.txt", bytesOf "hello world"), ("b.txt", bytesOf "goodbye")] :=
  have hagree : ∀ k, k ≠ "logs/a.txt" →
      logsS3.GetObject "bkt" k = logsFaultS3.GetObject "bkt" k := by
    intro k hk
    simp [logsFaultS3, hk]
  have h := grepFor_fault_isolation logsS3 logsFaultS3 OS.faultFree "bkt" (bytesOf "o")
    "logs/a.txt" hagree (by decide)
  ⟨⟨hagree, by decide⟩,
    (h.2.1 ["logs/a.txt", "logs/b.txt"] true World.empty).trans (by decide), by decide⟩

/-! ## Completeness -/

theorem Files.truncate_fresh (fs : Files) (n : String) (h : n ∉ fs.map Prod.fst) :
    fs.truncate n = fs ++ [(n, [])] := by
  induction fs with
  | nil => rfl
  | cons e rest ih =>
    obtain ⟨a, d⟩ := e
    simp only [List.map_cons, List.mem_cons, not_or] at h
    simp [Files.truncate, Ne.symm h.1, ih h.2]

theorem Files.append_fresh (fs : Files) (n : String) (d data : List Byte)
    (h : n ∉ fs.map Prod.fst) :
    Files.append (fs ++ [(n, d)]) n data = fs ++ [(n, d ++ data)] := by
  induction fs with
  | nil => simp [Files.append]
  | cons e rest ih =>
    obtain ⟨a, d0⟩ := e
    simp only [List.map_cons, List.mem_cons, not_or] at h
    simp [Files.append, Ne.symm h.1, ih h.2]

theorem Files.put_fresh (fs : Files) (n : String) (c : List Byte) (h : n ∉ fs.map Prod.fst) :
    fs.put n c = fs ++ [(n, c)] := by
  rw [Files.put, Files.truncate_fresh fs n h, Files.append_fresh fs n [] c h]
  simp

/-- The file a matching key is persisted as. -/
theorem grepForLoop_files_fresh (s : S3) (os : OS) (hos : os.NoFaults) (bucket : String)
    (target : List Byte) (K : List String) (st : Buffer × World)
    (hbase : (K.map pathBase).Nodup)
    (hfresh : ∀ k ∈ K, pathBase k ∉ st.2.files.map Prod.fst) :
    (grepForLoop s os bucket target K st).2.files =
      st.2.files ++ (K.filter (s.isMatch bucket target)).map
        (fun k => (pathBase k, (s.contentOf bucket k).getD [])) := by
  induction K generalizing st with
  | nil => simp [grepForLoop]
  | cons k ks ih =>
    simp only [List.map_cons, List.nodup_cons] at hbase
    have hk := hfresh k (List.mem_cons_self _ _)
    have hbody := grepForBody_files s os hos bucket target st k
    simp only [grepForLoop, List.foldl_cons]
    have hih := ih (grepForBody s os bucket target st k) hbase.2
    simp only [grepForLoop] at hih
    cases hc : s.contentOf bucket k with
    | none =>
      rw [hc] at hbody
      simp only at hbody
      rw [hih (by rw [hbody]; exact fun k2 hk2 => hfresh k2 (List.mem_cons_of_mem _ hk2)), hbody]
      simp [List.filter_cons, S3.isMatch, hc]
    | some c =>
      rw [hc] at hbody
      simp only at hbody
      cases hm : bytesContains c target with
      | false =>
        rw [hm] at hbody
        simp only [Bool.false_eq_true, if_false] at hbody
        rw [hih (by rw [hbody]; exact fun k2 hk2 => hfresh k2 (List.mem_cons_of_mem _ hk2)),
          hbody]
        simp [List.filter_cons, S3.isMatch, hc, hm]
      | true =>
        rw [hm, if_pos rfl, Files.put_fresh _ _ _ hk] at hbody
        have hfresh2 : ∀ k2 ∈ ks,
            pathBase k2 ∉ (grepForBody s os bucket target st k).2.files.map Prod.fst := by
          intro k2 hk2
          rw [hbody]
          simp only [List.map_append, List.map_cons, List.map_nil, List.mem_append,
            List.mem_singleton, not_or]
          refine ⟨hfresh k2 (List.mem_cons_of_mem _ hk2), ?_⟩
          intro heq
          exact hbase.1 (heq ▸ List.mem_map_of_mem pathBase hk2)
        rw [hih hfresh2, hbody]
        simp [List.filter_cons, S3.isMatch, hc, hm]

theorem Files.get_map_of_mem (M : List String) (f : String → List Byte)
    (hbase : (M.map pathBase).Nodup) (k : String) (hk : k ∈ M) :
    Files.get (M.map (fun k => (pathBase k, f k))) (pathBase k) = some (f k) := by
  induction M with
  | nil => simp at hk
  | cons k0 rest ih =>
    simp only [List.map_cons, List.nodup_cons] at hbase
    simp only [List.map_cons, Files.get]
    rcases List.mem_cons.1 hk with h | h
    · subst h; simp
    · have hne : pathBase k0 ≠ pathBase k := by
        intro heq
        exact hbase.1 (heq ▸ List.mem_map_of_mem pathBase h)
      simp [hne, ih hbase.2 h]

theorem Files.get_eq_none (fs : Files) (n : String) (h : n ∉ fs.map Prod.fst) :
    fs.get n = none := by
  induction fs with
  | nil => rfl
  | cons e rest ih =>
    obtain ⟨a, d⟩ := e
    simp only [List.map_cons, List.mem_cons, not_or] at h
    simp [Files.get, Ne.symm h.1, ih h.2]

theorem completeness_of_files (s : S3) (bucket : String) (target : List Byte)
    (K : List String) (hbase : (K.map pathBase).Nodup) :
    Completeness s bucket target K
      ((K.filter (s.isMatch bucket target)).map
        (fun k => (pathBase k, (s.contentOf bucket k).getD []))) := by
  have hsub : ((K.filter (s.isMatch bucket target)).map pathBase).Nodup :=
    hbase.sublist (List.Sublist.map _ (List.filter_sublist _))
  refine ⟨?_, ?_, ?_⟩
  · intro k hk hm
    rw [Files.get_map_of_mem _ _ hsub k (List.mem_filter.2 ⟨hk, hm⟩)]
    unfold S3.isMatch at hm
    cases hc : s.contentOf bucket k with
    | none => simp [hc] at hm
    | some c => rfl
  · intro k hk hm
    apply Files.get_eq_none
    simp only [List.map_map, List.mem_map, List.mem_filter, Function.comp, not_exists, not_and]
    rintro k2 ⟨hk2, hm2⟩ heq
    have : k2 = k := List.inj_on_of_nodup_map hbase hk2 hk heq
    subst this
    rw [hm] at hm2
    exact Bool.false_ne_true hm2
  · rw [List.map_map]
    exact List.Perm.refl _

/-- C1, as stated, fails: two distinct keys `a/x.txt` and `b/x.txt`, both containing
the target, on a fault-free listing, store and file system; the run leaves the
single file `x.txt`, holding the content of `b/x.txt`, so `a/x.txt` has no file
with its content and there are fewer files than matching keys. -/
theorem completeness_fails_on_shared_base :
    (collideS3.ListObjectsV2 "bkt" "").FaultFree ∧
      (collideS3.ListObjectsV2 "bkt" "").allKeys = ["a/x.txt", "b/x.txt"] ∧
      (collideS3.ListObjectsV2 "bkt" "").allKeys.Nodup ∧
      (∀ k ∈ (collideS3.ListObjectsV2 "bkt" "").allKeys,
        collideS3.isMatch "bkt" (bytesOf "hello") k = true) ∧
      OS.faultFree.NoFaults ∧
      (grepFor collideS3 OS.faultFree "bkt" (bytesOf "hello") (keys collideS3 "bkt" "").chan
        World.empty).world.files = [("x.txt", bytesOf "hello there")] ∧
      ¬ Completeness collideS3 "bkt" (bytesOf "hello") (collideS3.ListObjectsV2 "bkt" "").allKeys
        (grepFor collideS3 OS.faultFree "bkt" (bytesOf "hello") (keys collideS3 "bkt" "").chan
          World.empty).world.files := by
  refine ⟨by decide, by decide, by decide, by decide, OS.faultFree_noFaults, by decide, ?_⟩
  intro h
  have h1 := h.1 "a/x.txt" (by decide) (by decide)
  revert h1
  decide

/-- C1, amended: on a fault-free listing whose keys have pairwise distinct last path
elements, with a store that delivers every listed object and a file system
without faults, the worker run over the keys sent by `keys`, from an empty
directory, leaves exactly one file per matching key, named `path.Base` of the key
and holding its content, and no file for a key that is not a match. -/
theorem pipeline_completeness (s : S3) (os : OS) (bucket pfx : String) (target : List Byte)
    (hl : (s.ListObjectsV2 bucket pfx).FaultFree)
    (hbase : ((s.ListObjectsV2 bucket pfx).allKeys.map pathBase).Nodup)
    (_hstore : ∀ k ∈ (s.ListObjectsV2 bucket pfx).allKeys, s.contentOf bucket k ≠ none)
    (hos : os.NoFaults) :
    (keys s bucket pfx).chan.sent = (s.ListObjectsV2 bucket pfx).allKeys ∧
      Completeness s bucket target (s.ListObjectsV2 bucket pfx).allKeys
        (grepFor s os bucket target (keys s bucket pfx).chan World.empty).world.files := by
  rw [keys_faultFree s bucket pfx hl]
  refine ⟨rfl, ?_⟩
  simp only [grepFor]
  rw [grepForLoop_files_fresh s os hos bucket target _ _ hbase (by simp [World.empty])]
  simpa [World.empty] using completeness_of_files s bucket target _ hbase

theorem pipeline_completeness_witness :
    ((logsS3.ListObjectsV2 "bkt" "logs/").FaultFree ∧
      ((logsS3.ListObjectsV2 "bkt" "logs/").allKeys.map pathBase).Nodup ∧
      (∀ k ∈ (logsS3.ListObjectsV2 "bkt" "logs/").allKeys, logsS3.contentOf "bkt" k ≠ none) ∧
      OS.faultFree.NoFaults) ∧
      (keys logsS3 "bkt" "logs/").chan.sent = ["logs/a.txt", "logs/b.txt"] ∧
      Completeness logsS3 "bkt" (bytesOf "hello") (logsS3.ListObjectsV2 "bkt" "logs/").allKeys
        (grepFor logsS3 OS.faultFree "bkt" (bytesOf "hello") (keys logsS3 "bkt" "logs/").chan
          World.empty).world.files ∧
      (grepFor logsS3 OS.faultFree "bkt" (bytesOf "hello") (keys logsS3 "bkt" "logs/").chan
        World.empty).world.files = [("a.txt", bytesOf "hello world")] :=
  have h := pipeline_completeness logsS3 OS.faultFree "bkt" "logs/" (bytesOf "hello")
    (by decide) (by decide) (by decide) OS.faultFree_noFaults
  ⟨⟨by decide, by decide, by decide, OS.faultFree_noFaults⟩, h.1.trans (by decide), h.2,
    by decide⟩

end Trailgrep
